import Mathlib

/-!
Verification of the `wasm-rpc` stub generator against its specification.

The development shallowly embeds the decision logic of the repository:

* the WIT package dependency resolver (`visit` / `get_unresolved_packages`
  in `wasm-rpc-stubgen/src/main.rs`),
* stub interface synthesis (`collect_stub_interfaces` / `generate_stub_wit`
  in `wasm-rpc-stubgen/src/main.rs`),
* the dependency-merge engine (`add_stub_dependency` and the `internal`
  module in `wasm-rpc-stubgen/src/lib.rs`), and
* composition-input construction (`compose` in `wasm-rpc-stubgen/src/lib.rs`).

Filesystem contents are modelled as association lists from relative paths to
file contents; Rust strings are modelled as `String` / `List Char`;
fallible Rust functions returning `anyhow::Result` are modelled with
`Except String`; a Rust panic (`expect`) is a distinguished error variant.
-/

/-! ## List-of-characters utilities mirroring Rust `str` operations -/

/-- Strip a literal from the front of a character list; `some rest` on
success.  Mirrors matching a literal prefix in Rust (`str::strip_prefix` /
a literal regex fragment). -/
def stripLit : List Char → List Char → Option (List Char)
  | [], s => some s
  | _ :: _, [] => none
  | p :: ps, c :: cs => if p = c then stripLit ps cs else none

/-- Rust `str::strip_suffix` on character lists: `some front` when the list
ends with `suf`. -/
def stripSuffixL (suf s : List Char) : Option (List Char) :=
  if suf.length ≤ s.length then
    if s.drop (s.length - suf.length) = suf then some (s.take (s.length - suf.length))
    else none
  else none

/-- Rust `str::strip_suffix` on `String`. -/
def stripSuffixS (suf s : String) : Option String :=
  (stripSuffixL suf.data s.data).map (fun l => ⟨l⟩)

/-- Rust `str::replace pat ""`: delete every non-overlapping occurrence of
`pat`, scanning left to right.  The `Nat` fuel (instantiated with the
string length, which bounds the number of scanning steps) makes the
recursion structural.  (The degenerate empty pattern, unused by the
program, leaves the string unchanged here.) -/
def replaceAllGo : List Char → Nat → List Char → List Char
  | _, _, [] => []
  | _, 0, s => s
  | [], _ + 1, c :: rest => c :: rest
  | p :: ps, fuel + 1, c :: rest =>
    if (p :: ps).isPrefixOf (c :: rest) then
      replaceAllGo (p :: ps) fuel (List.drop ps.length rest)
    else
      c :: replaceAllGo (p :: ps) fuel rest

/-- Rust `str::replace pat ""` on character lists. -/
def replaceAllL (pat s : List Char) : List Char := replaceAllGo pat s.length s

theorem replaceAllGo_fuel {pat : List Char} :
    ∀ (f : Nat) (s : List Char) (g : Nat), s.length ≤ f → s.length ≤ g →
      replaceAllGo pat f s = replaceAllGo pat g s := by
  intro f
  induction f with
  | zero =>
    intro s g hf hg
    have hs : s = [] := List.eq_nil_of_length_eq_zero (Nat.le_zero.mp hf)
    subst hs
    cases g <;> cases pat <;> rfl
  | succ f ih =>
    intro s g hf hg
    cases s with
    | nil => cases g <;> cases pat <;> rfl
    | cons c rest =>
      cases g with
      | zero => simp at hg
      | succ g' =>
        cases pat with
        | nil => rfl
        | cons p ps =>
          simp only [replaceAllGo]
          simp only [List.length_cons] at hf hg
          split
          · apply ih
            · have := List.length_drop ps.length rest
              omega
            · have := List.length_drop ps.length rest
              omega
          · exact congrArg (c :: ·) (ih rest g' (by omega) (by omega))

theorem stripLit_some_length {pat s r : List Char} (h : stripLit pat s = some r) :
    r.length + pat.length = s.length := by
  induction pat generalizing s with
  | nil => simp only [stripLit, Option.some.injEq] at h; simp [← h]
  | cons p ps ih =>
    cases s with
    | nil => simp [stripLit] at h
    | cons c cs =>
      simp only [stripLit] at h
      split at h
      · have := ih h
        simp only [List.length_cons]
        omega
      · exact absurd h (by simp)

theorem stripLit_some_append {pat s r : List Char} (h : stripLit pat s = some r) :
    s = pat ++ r := by
  induction pat generalizing s with
  | nil => simp only [stripLit, Option.some.injEq] at h; simp [h]
  | cons p ps ih =>
    cases s with
    | nil => simp [stripLit] at h
    | cons c cs =>
      simp only [stripLit] at h
      split at h
      · next heq => simpa [heq] using ih h
      · exact absurd h (by simp)

theorem stripLit_append (pat r : List Char) : stripLit pat (pat ++ r) = some r := by
  induction pat with
  | nil => simp [stripLit]
  | cons p ps ih => simp [stripLit, ih]

/-! ## The package dependency resolver (`wasm-rpc-stubgen/src/main.rs`)

A parsed WIT package is modelled by its name and the list of names of its
foreign dependencies (`UnresolvedPackage::foreign_deps`); `wit_parser`
package names are treated as opaque identifiers. -/

structure RPkg where
  name : String
  foreignDeps : List String
deriving DecidableEq, Repr

/-- Lookup in the `deps` map built by `get_unresolved_packages`
(`BTreeMap<PackageName, UnresolvedPackage>` keyed by package name). -/
def lookupPkg (deps : List RPkg) (n : String) : Option RPkg :=
  deps.find? (fun p => p.name == n)

/-- Name resolution over the whole package set handled by one resolver run:
the `deps` directory packages plus the root package. -/
def lookupAll (root : RPkg) (deps : List RPkg) (n : String) : Option RPkg :=
  match lookupPkg deps n with
  | some p => some p
  | none => if root.name = n then some root else none

/-- The `for (dep, _) in pkg.foreign_deps` loop body of `visit`
(main.rs:27-36), parametric in the recursive call.  State is the pair of the
`order` IndexSet (as a duplicate-free list in insertion order) and the
`visiting` HashSet (as a list).  `assert!` failures are modelled as errors. -/
def visitDeps (deps : List RPkg)
    (visitF : RPkg → List String → List String → Except String (List String × List String)) :
    List String → List String → List String → Except String (List String × List String)
  | [], order, visiting => .ok (order, visiting)
  | d :: rest, order, visiting =>
    if d ∈ visiting then .error "package depends on itself"
    else
      match lookupPkg deps d with
      | none => .error ("failed to find package `" ++ d ++ "` in `deps` directory")
      | some depPkg =>
        match visitF depPkg order (d :: visiting) with
        | .error e => .error e
        | .ok (order1, visiting1) =>
          if depPkg.name ∈ visiting1 then
            visitDeps deps visitF rest order1 (visiting1.erase depPkg.name)
          else .error "assertion failed: visiting.remove"

/-- `visit` of main.rs:18-39.  The Rust recursion has no fuel; the `Nat`
fuel only bounds recursion depth for the embedding, and all theorems either
hold for every fuel or quantify over it. -/
def visit (deps : List RPkg) :
    Nat → RPkg → List String → List String → Except String (List String × List String)
  | 0, _, _, _ => .error "fuel exhausted"
  | fuel + 1, pkg, order, visiting =>
    if pkg.name ∈ order then .ok (order, visiting)
    else
      match visitDeps deps (visit deps fuel) pkg.foreignDeps order visiting with
      | .error e => .error e
      | .ok (order1, visiting1) =>
        if pkg.name ∈ order1 then .error "assertion failed: order.insert"
        else .ok (order1 ++ [pkg.name], visiting1)

/-- The `for pkg in deps.values().chain([&root])` loop of
`get_unresolved_packages` (main.rs:63-65). -/
def goChain (deps : List RPkg) (fuel : Nat) :
    List RPkg → List String → List String → Except String (List String × List String)
  | [], order, visiting => .ok (order, visiting)
  | p :: ps, order, visiting =>
    match visit deps fuel p order visiting with
    | .error e => .error e
    | .ok (order1, visiting1) => goChain deps fuel ps order1 visiting1

/-- The topological order produced by `get_unresolved_packages`
(main.rs:42-75): the final contents of the `order` IndexSet. -/
def getUnresolvedOrder (fuel : Nat) (root : RPkg) (deps : List RPkg) :
    Except String (List String) :=
  (goChain deps fuel (deps ++ [root]) [] []).map (fun r => r.1)

/-- `order` is topologically valid: whenever a package of the resolution set
occurs in `order`, all its foreign dependencies occur strictly before it. -/
def topoOk (root : RPkg) (deps : List RPkg) (order : List String) : Prop :=
  ∀ l1 n l2, order = l1 ++ n :: l2 →
    ∀ P, lookupAll root deps n = some P → ∀ d ∈ P.foreignDeps, d ∈ l1

/-- The foreign-dependency edge relation of the resolution set. -/
def edgeRel (root : RPkg) (deps : List RPkg) (m n : String) : Prop :=
  ∃ P, lookupAll root deps m = some P ∧ n ∈ P.foreignDeps

theorem topoOk_nil (root : RPkg) (deps : List RPkg) : topoOk root deps [] := by
  intro l1 n l2 h
  cases l1 <;> simp_all

theorem topoOk_append {root : RPkg} {deps : List RPkg} {o : List String} {x : String}
    (h : topoOk root deps o)
    (hx : ∀ P, lookupAll root deps x = some P → ∀ d ∈ P.foreignDeps, d ∈ o) :
    topoOk root deps (o ++ [x]) := by
  intro l1 n l2 he P hP d hd
  rcases List.eq_nil_or_concat l2 with h2 | ⟨l2', y, rfl⟩
  · subst h2
    have hlen : o.length = l1.length := by
      have := congrArg List.length he; simp at this; omega
    obtain ⟨rfl, hxs⟩ := List.append_inj he hlen
    have hxn : x = n := by simpa using hxs
    subst hxn
    exact hx P hP d hd
  · have he' : o ++ [x] = (l1 ++ n :: l2') ++ [y] := by
      simpa using he
    have hlen : o.length = (l1 ++ n :: l2').length := by
      have := congrArg List.length he'; simp at this; simp; omega
    obtain ⟨rfl, -⟩ := List.append_inj he' hlen
    exact h l1 n l2' rfl P hP d hd

/-- Specification transferred through one recursive call of `visit`. -/
def VisitOK (root : RPkg) (deps : List RPkg)
    (f : RPkg → List String → List String → Except String (List String × List String)) : Prop :=
  ∀ pkg order visiting o v,
    lookupAll root deps pkg.name = some pkg →
    f pkg order visiting = .ok (o, v) →
    (∃ ext, o = order ++ ext) ∧ pkg.name ∈ o ∧
    (topoOk root deps order → topoOk root deps o) ∧
    (order.Nodup → o.Nodup)

theorem lookupPkg_self {deps : List RPkg} (hnd : (deps.map RPkg.name).Nodup)
    {p : RPkg} (hp : p ∈ deps) : lookupPkg deps p.name = some p := by
  induction deps with
  | nil => cases hp
  | cons q qs ih =>
    simp only [List.map_cons, List.nodup_cons] at hnd
    rcases List.mem_cons.mp hp with rfl | hp'
    · simp [lookupPkg]
    · have hne : (q.name == p.name) = false := by
        simp only [beq_eq_false_iff_ne, ne_eq]
        intro he; exact hnd.1 (he ▸ List.mem_map_of_mem RPkg.name hp')
      simpa [lookupPkg, List.find?_cons, hne] using ih hnd.2 hp'

theorem lookupAll_self {root : RPkg} {deps : List RPkg}
    (hnd : (deps.map RPkg.name).Nodup) (hroot : root.name ∉ deps.map RPkg.name) :
    ∀ p ∈ deps ++ [root], lookupAll root deps p.name = some p := by
  intro p hp
  rcases List.mem_append.mp hp with hp' | hp'
  · simp [lookupAll, lookupPkg_self hnd hp']
  · have : p = root := by simpa using hp'
    subst this
    have hnone : lookupPkg deps p.name = none := by
      apply List.find?_eq_none.mpr
      intro q hq
      simp only [beq_iff_eq]
      intro he; exact hroot (he ▸ List.mem_map_of_mem RPkg.name hq)
    simp [lookupAll, hnone]

theorem lookupAll_name {root : RPkg} {deps : List RPkg} {n : String} {P : RPkg}
    (h : lookupAll root deps n = some P) : P.name = n ∧ P ∈ deps ++ [root] := by
  unfold lookupAll at h
  split at h
  · next q hlk =>
    simp only [Option.some.injEq] at h
    subst h
    exact ⟨by simpa using List.find?_some hlk,
      List.mem_append_left _ (List.mem_of_find?_eq_some hlk)⟩
  · split at h
    · next hr =>
      simp only [Option.some.injEq] at h
      subst h
      exact ⟨hr, by simp⟩
    · cases h

theorem visitDeps_ok {root : RPkg} {deps : List RPkg}
    {f : RPkg → List String → List String → Except String (List String × List String)}
    (hf : VisitOK root deps f) :
    ∀ ds order visiting o v,
      visitDeps deps f ds order visiting = .ok (o, v) →
      (∃ ext, o = order ++ ext) ∧ (∀ d ∈ ds, d ∈ o) ∧
      (topoOk root deps order → topoOk root deps o) ∧ (order.Nodup → o.Nodup) := by
  intro ds
  induction ds with
  | nil =>
    intro order visiting o v h
    simp only [visitDeps, Except.ok.injEq, Prod.mk.injEq] at h
    obtain ⟨rfl, rfl⟩ := h
    exact ⟨⟨[], by simp⟩, by simp, id, id⟩
  | cons d rest ih =>
    intro order visiting o v h
    simp only [visitDeps] at h
    split at h
    · exact absurd h (by simp)
    · split at h
      · exact absurd h (by simp)
      · next depPkg hlk =>
        split at h
        · exact absurd h (by simp)
        · next order1 visiting1 hv =>
          split at h
          · have hdep : depPkg.name = d := by
              simpa using List.find?_some hlk
            have hla : lookupAll root deps depPkg.name = some depPkg := by
              rw [hdep]; simp [lookupAll, hlk]
            obtain ⟨⟨e1, rfl⟩, hmem1, htopo1, hnd1⟩ :=
              hf depPkg order (d :: visiting) order1 visiting1 hla hv
            obtain ⟨⟨e2, he2⟩, hmem2, htopo2, hnd2⟩ := ih _ _ _ _ h
            refine ⟨⟨e1 ++ e2, by simp [he2]⟩, ?_,
              fun ht => htopo2 (htopo1 ht), fun hn => hnd2 (hnd1 hn)⟩
            intro x hx
            rcases List.mem_cons.mp hx with rfl | hx'
            · rw [he2]; exact List.mem_append_left _ (hdep ▸ hmem1)
            · exact hmem2 x hx'
          · exact absurd h (by simp)

theorem visit_ok (root : RPkg) (deps : List RPkg) :
    ∀ fuel, VisitOK root deps (visit deps fuel) := by
  intro fuel
  induction fuel with
  | zero => intro pkg order visiting o v _ h; simp [visit] at h
  | succ n ih =>
    intro pkg order visiting o v hla h
    simp only [visit] at h
    split at h
    · next hmem =>
      simp only [Except.ok.injEq, Prod.mk.injEq] at h
      obtain ⟨rfl, rfl⟩ := h
      exact ⟨⟨[], by simp⟩, hmem, id, id⟩
    · next hnmem =>
      split at h
      · exact absurd h (by simp)
      · next order1 visiting1 hvd =>
        split at h
        · exact absurd h (by simp)
        · next hnmem1 =>
          simp only [Except.ok.injEq, Prod.mk.injEq] at h
          obtain ⟨rfl, rfl⟩ := h
          obtain ⟨⟨ext, rfl⟩, hmemds, htopo, hnd⟩ := visitDeps_ok ih _ _ _ _ _ hvd
          refine ⟨⟨ext ++ [pkg.name], by simp⟩, by simp, ?_, ?_⟩
          · intro ht
            refine topoOk_append (htopo ht) (fun P hP d hd => ?_)
            rw [hla] at hP
            cases hP
            exact hmemds d hd
          · intro hn
            have h1 := hnd hn
            rw [List.nodup_append] at h1
            have hno : pkg.name ∉ order := fun hc => hnmem1 (List.mem_append_left _ hc)
            have hne : pkg.name ∉ ext := fun hc => hnmem1 (List.mem_append_right _ hc)
            simp [List.nodup_append, h1.1, h1.2.1, h1.2.2, hno, hne]

theorem goChain_ok {root : RPkg} {deps : List RPkg} {fuel : Nat} :
    ∀ ps order visiting o v,
      (∀ p ∈ ps, lookupAll root deps p.name = some p) →
      goChain deps fuel ps order visiting = .ok (o, v) →
      (∃ ext, o = order ++ ext) ∧ (∀ p ∈ ps, p.name ∈ o) ∧
      (topoOk root deps order → topoOk root deps o) ∧ (order.Nodup → o.Nodup) := by
  intro ps
  induction ps with
  | nil =>
    intro order visiting o v _ h
    simp only [goChain, Except.ok.injEq, Prod.mk.injEq] at h
    obtain ⟨rfl, rfl⟩ := h
    exact ⟨⟨[], by simp⟩, by simp, id, id⟩
  | cons p ps ih =>
    intro order visiting o v hreg h
    simp only [goChain] at h
    split at h
    · exact absurd h (by simp)
    · next order1 visiting1 hv =>
      obtain ⟨⟨e1, rfl⟩, hmem1, htopo1, hnd1⟩ :=
        visit_ok root deps fuel p order visiting order1 visiting1
          (hreg p (by simp)) hv
      obtain ⟨⟨e2, he2⟩, hmem2, htopo2, hnd2⟩ :=
        ih _ _ _ _ (fun q hq => hreg q (List.mem_cons_of_mem _ hq)) h
      refine ⟨⟨e1 ++ e2, by simp [he2]⟩, ?_,
        fun ht => htopo2 (htopo1 ht), fun hn => hnd2 (hnd1 hn)⟩
      intro q hq
      rcases List.mem_cons.mp hq with rfl | hq'
      · rw [he2]; exact List.mem_append_left _ hmem1
      · exact hmem2 q hq'

/-- **C3.** For every acyclic set of packages — a root package together with
its dependency-directory packages, with distinct package names — whenever
the resolver (`get_unresolved_packages`) succeeds, its output order contains
every package of the set, and each package occurs strictly after every
package it references via foreign dependencies. -/
theorem resolver_topological_order {fuel : Nat} {root : RPkg} {deps : List RPkg}
    {order : List String}
    (hnd : (deps.map RPkg.name).Nodup) (hroot : root.name ∉ deps.map RPkg.name)
    (h : getUnresolvedOrder fuel root deps = .ok order) :
    (∀ p ∈ root :: deps, p.name ∈ order) ∧ topoOk root deps order := by
  unfold getUnresolvedOrder at h
  cases hg : goChain deps fuel (deps ++ [root]) [] [] with
  | error e => rw [hg] at h; simp [Except.map] at h
  | ok r =>
    obtain ⟨o, v⟩ := r
    rw [hg] at h
    simp only [Except.map, Except.ok.injEq] at h
    subst h
    obtain ⟨-, hmem, htopo, -⟩ := goChain_ok _ _ _ _ _ (lookupAll_self hnd hroot) hg
    refine ⟨?_, htopo (topoOk_nil root deps)⟩
    intro p hp
    apply hmem
    rcases List.mem_cons.mp hp with rfl | hp'
    · simp
    · simp [hp']

/-- Closed instance for `resolver_topological_order`: a two-package set
(`r` depends on `a`) resolves to the order `["a", "r"]`, which the theorem
certifies topological. -/
theorem resolver_topological_order_witness :
    getUnresolvedOrder 5 ⟨"r", ["a"]⟩ [⟨"a", []⟩] = .ok ["a", "r"] ∧
    ((∀ p ∈ (⟨"r", ["a"]⟩ : RPkg) :: [⟨"a", []⟩], p.name ∈ ["a", "r"]) ∧
      topoOk ⟨"r", ["a"]⟩ [⟨"a", []⟩] ["a", "r"]) :=
  have h : getUnresolvedOrder 5 ⟨"r", ["a"]⟩ [⟨"a", []⟩] = .ok ["a", "r"] := by rfl
  ⟨h, resolver_topological_order (by decide) (by decide) h⟩

/-- **C4 counterexample.** The claim says a cyclic dependency set fails
"with a self/cyclic-dependency error identifying the offending package".
The resolver does fail, but with the constant message
`"package depends on itself"` (main.rs:29), which is identical for two
resolution sets whose offending packages differ (`xq` vs `yw`), so the
error cannot identify the offending package. -/
theorem resolver_cycle_message_not_identifying :
    getUnresolvedOrder 4 ⟨"r1", []⟩ [⟨"xq", ["xq"]⟩]
      = .error "package depends on itself" ∧
    getUnresolvedOrder 4 ⟨"r2", []⟩ [⟨"yw", ["yw"]⟩]
      = .error "package depends on itself" :=
  ⟨rfl, rfl⟩

/-- **C4 (amended).** For every package set whose dependency graph contains
a direct or transitive cycle, the resolver fails before producing any
output order (for whatever recursion fuel); the accompanying
counterexample shows the error is the constant message
`"package depends on itself"`, which does not name the offending package. -/
theorem resolver_cycle_always_fails {root : RPkg} {deps : List RPkg}
    (hnd : (deps.map RPkg.name).Nodup) (hroot : root.name ∉ deps.map RPkg.name)
    (hcyc : ∃ n, Relation.TransGen (edgeRel root deps) n n) :
    ∀ fuel, ∃ msg, getUnresolvedOrder fuel root deps = .error msg := by
  intro fuel
  cases hres : getUnresolvedOrder fuel root deps with
  | error msg => exact ⟨msg, rfl⟩
  | ok order =>
    exfalso
    unfold getUnresolvedOrder at hres
    cases hg : goChain deps fuel (deps ++ [root]) [] [] with
    | error e => rw [hg] at hres; simp [Except.map] at hres
    | ok r =>
      obtain ⟨o, v⟩ := r
      rw [hg] at hres
      simp only [Except.map, Except.ok.injEq] at hres
      subst hres
      obtain ⟨-, hmem, htopo, hnd'⟩ :=
        goChain_ok _ _ _ _ _ (lookupAll_self hnd hroot) hg
      have htopoO := htopo (topoOk_nil root deps)
      have hnodup := hnd' List.nodup_nil
      have hedge : ∀ a b, edgeRel root deps a b →
          List.indexOf b o < List.indexOf a o := by
        intro a b hab
        obtain ⟨P, hPa, hb⟩ := hab
        obtain ⟨hPn, hPm⟩ := lookupAll_name hPa
        have ha : a ∈ o := by
          rw [← hPn]
          exact hmem P hPm
        obtain ⟨l1, l2, rfl⟩ := List.append_of_mem ha
        have hbl1 : b ∈ l1 := htopoO l1 a l2 rfl P hPa b hb
        have hna : a ∉ l1 := by
          rw [List.nodup_append] at hnodup
          exact fun hc => hnodup.2.2 hc (List.mem_cons_self _ _)
        have h1 : List.indexOf b (l1 ++ a :: l2) = List.indexOf b l1 :=
          List.indexOf_append_of_mem hbl1
        have h2 : List.indexOf b l1 < l1.length :=
          List.indexOf_lt_length.mpr hbl1
        have h3 : List.indexOf a (l1 ++ a :: l2) =
            l1.length + List.indexOf a (a :: l2) :=
          List.indexOf_append_of_not_mem hna
        rw [List.indexOf_cons_self] at h3
        omega
      have htg : ∀ a b, Relation.TransGen (edgeRel root deps) a b →
          List.indexOf b o < List.indexOf a o := by
        intro a b hab
        induction hab with
        | single h1 => exact hedge _ _ h1
        | tail h1 h2 ih => exact lt_trans (hedge _ _ h2) ih
      obtain ⟨n, hn⟩ := hcyc
      exact absurd (htg n n hn) (lt_irrefl _)

/-- Closed instance for `resolver_cycle_always_fails`: the self-loop package
`xq` makes the resolver fail at fuel 4. -/
theorem resolver_cycle_always_fails_witness :
    ∃ msg, getUnresolvedOrder 4 ⟨"r1", []⟩ [⟨"xq", ["xq"]⟩] = .error msg :=
  resolver_cycle_always_fails (by decide) (by decide)
    ⟨"xq", Relation.TransGen.single ⟨⟨"xq", ["xq"]⟩, by decide, by decide⟩⟩ 4

/-! ## Round-trip naming: stub interface name vs world name

`generate_stub_wit` (main.rs:489) names the synthesized interface
`stub-{world.name}`; `find_world_name` (lib.rs:499-511) recovers the world
name from the parsed stub package's interface names using
`starts_with("stub-")` and `replace("stub-", "")`. -/

/-- The interface name synthesized for a world (main.rs:489). -/
def stubIfaceName (w : String) : String := "stub-" ++ w

/-- `internal::find_world_name` of lib.rs:499-511, over the (optional)
interface names of the parsed `_stub.wit` package. -/
def findWorldName : List (Option String) → Except String String
  | [] => .error "Failed to find world name from the stub. The interface name in stub is expected to have the pattern stub-<world-name>"
  | oname :: rest =>
    match oname with
    | some name =>
      if "stub-".data.isPrefixOf name.data then
        .ok ⟨replaceAllL "stub-".data name.data⟩
      else findWorldName rest
    | none => findWorldName rest

theorem replaceAllGo_eq_self {p : Char} {ps : List Char} :
    ∀ (f : Nat) (s : List Char), ¬ ((p :: ps) <:+: s) →
      replaceAllGo (p :: ps) f s = s := by
  intro f
  induction f with
  | zero => intro s _; cases s <;> rfl
  | succ f ih =>
    intro s h
    cases s with
    | nil => rfl
    | cons c rest =>
      simp only [replaceAllGo]
      have hnp : ((p :: ps).isPrefixOf (c :: rest)) = false := by
        rw [Bool.eq_false_iff]
        intro hc
        exact h (List.IsPrefix.isInfix (List.isPrefixOf_iff_prefix.mp hc))
      rw [hnp]
      simp only [Bool.false_eq_true, if_false]
      rw [ih rest (fun hc => h (List.infix_cons hc))]

theorem replaceAllL_eq_self {p : Char} {ps s : List Char}
    (h : ¬ ((p :: ps) <:+: s)) : replaceAllL (p :: ps) s = s :=
  replaceAllGo_eq_self s.length s h

theorem replaceAllL_cancel_head (p : Char) (ps s : List Char) :
    replaceAllL (p :: ps) (p :: (ps ++ s)) = replaceAllL (p :: ps) s := by
  unfold replaceAllL
  have hp : ((p :: ps).isPrefixOf (p :: (ps ++ s))) = true := by
    rw [List.isPrefixOf_iff_prefix]
    exact ⟨s, by simp⟩
  simp only [List.length_cons, replaceAllGo, hp, if_true, List.drop_left]
  exact replaceAllGo_fuel _ s _ (by simp) le_rfl

/-- **C5.** For every world name not containing the reserved marker
`"stub-"` as a substring, recovering the world name (via the merge engine's
`find_world_name`) from the interface name that stub synthesis gives the
stub interface (`stub-` prefixed to the world name) yields exactly the
original world name. -/
theorem find_world_name_roundtrip {w : String}
    (h : ¬ ("stub-".data <:+: w.data)) :
    findWorldName [some (stubIfaceName w)] = .ok w := by
  have hdata : ("stub-" ++ w).data = 's' :: ("tub-".data ++ w.data) := by
    rw [String.data_append]
    rfl
  have hpre : ("stub-".data.isPrefixOf ("stub-" ++ w).data) = true := by
    rw [List.isPrefixOf_iff_prefix, String.data_append]
    exact ⟨w.data, rfl⟩
  have hcancel : replaceAllL "stub-".data ("stub-" ++ w).data = w.data := by
    rw [hdata]
    have hsplit : ("stub-".data : List Char) = 's' :: "tub-".data := rfl
    rw [hsplit, replaceAllL_cancel_head, ← hsplit]
    rw [hsplit] at h ⊢
    exact replaceAllL_eq_self h
  simp only [findWorldName, stubIfaceName]
  rw [if_pos hpre]
  exact congrArg Except.ok (String.ext hcancel)

/-- Closed instance for `find_world_name_roundtrip` at the world name
`"api"`. -/
theorem find_world_name_roundtrip_witness :
    findWorldName [some (stubIfaceName "api")] = .ok "api" :=
  find_world_name_roundtrip (by decide)

/-! ## Composition-input construction (`compose`, lib.rs:427-458)

Each supplied stub WASM is modelled by its path together with the list of
its analysed top-level exports; `wasm_compose`'s `config.dependencies` map
(an insertion-ordered map) is modelled as an association list with
`IndexMap::insert` semantics (replace the value of an existing key in
place, append new keys). -/

/-- An analysed top-level export of a stub binary
(`golem_wasm_ast::analysis::AnalysedExport`): an instance export with its
name, or any other kind of export. -/
inductive MExport
  | inst (name : String)
  | other
deriving DecidableEq, Repr

/-- `IndexMap::insert`: overwrite the value of an existing key, else
append. -/
def insertDep (m : List (String × String)) (k v : String) : List (String × String) :=
  if m.any (fun e => e.1 == k) then
    m.map (fun e => if e.1 == k then (k, v) else e)
  else m ++ [(k, v)]

/-- Map lookup (first entry with the given key). -/
def lookupDep : List (String × String) → String → Option String
  | [], _ => none
  | e :: rest, k => if e.1 == k then some e.2 else lookupDep rest k

/-- The `for export in stub_exports` loop of `compose` (lib.rs:441-450):
only `AnalysedExport::Instance` exports are inserted, keyed by instance
name, valued by the stub's path. -/
def insertExports (path : String) (m : List (String × String)) :
    List MExport → List (String × String)
  | [] => m
  | e :: rest =>
    match e with
    | .inst n => insertExports path (insertDep m n path) rest
    | .other => insertExports path m rest

/-- The `config.dependencies` map built by `compose` from all supplied stub
binaries (lib.rs:430-451), in order. -/
def composeConfig (stubs : List (String × List MExport)) : List (String × String) :=
  stubs.foldl (fun m stub => insertExports stub.1 m stub.2) []

/-- The composition-input construction step of `compose`: the part of the
function that decides the dependency mapping.  It performs no collision
check, so (given parseable stub binaries) it always produces a config. -/
def composePlan (stubs : List (String × List MExport)) :
    Except String (List (String × String)) :=
  .ok (composeConfig stubs)

theorem lookupDep_insertDep_self (m : List (String × String)) (k v : String) :
    lookupDep (insertDep m k v) k = some v := by
  unfold insertDep
  split
  · next hany =>
    induction m with
    | nil => simp at hany
    | cons e rest ih =>
      by_cases he : (e.1 == k) = true
      · simp [lookupDep, he]
      · rw [Bool.not_eq_true] at he
        simp only [List.any_cons, he, Bool.false_or] at hany
        simpa [lookupDep, he] using ih hany
  · induction m with
    | nil => simp [lookupDep]
    | cons e rest ih =>
      next hany =>
      by_cases he : (e.1 == k) = true
      · exact absurd (List.any_eq_true.mpr ⟨e, by simp, he⟩) hany
      · rw [Bool.not_eq_true] at he
        have hany' : ¬ rest.any (fun e => e.1 == k) = true := by
          intro hc
          rcases List.any_eq_true.mp hc with ⟨x, hx, hxk⟩
          exact hany (List.any_eq_true.mpr ⟨x, by simp [hx], hxk⟩)
        simpa [lookupDep, he] using ih hany'

theorem lookupDep_map_replace {k k' : String} (v : String) (hne : k' ≠ k) :
    ∀ m : List (String × String),
      lookupDep (m.map (fun e => if e.1 == k' then (k', v) else e)) k = lookupDep m k := by
  have hk'k : ((k' : String) == k) = false := by simpa using hne
  intro m
  induction m with
  | nil => simp
  | cons e rest ih =>
    simp only [List.map_cons]
    by_cases he : (e.1 == k') = true
    · rw [if_pos he]
      have hek : (e.1 == k) = false := by
        have h1 : e.1 = k' := by simpa using he
        rw [h1]; exact hk'k
      simp only [lookupDep, hk'k, hek, Bool.false_eq_true, if_false]
      exact ih
    · rw [if_neg he]
      cases hek : (e.1 == k)
      · simp only [lookupDep, hek, Bool.false_eq_true, if_false]
        exact ih
      · simp [lookupDep, hek]

theorem lookupDep_append_single {k k' : String} (v : String) (hne : k' ≠ k) :
    ∀ m : List (String × String),
      lookupDep (m ++ [(k', v)]) k = lookupDep m k := by
  have hk'k : ((k' : String) == k) = false := by simpa using hne
  intro m
  induction m with
  | nil => simp [lookupDep, hk'k]
  | cons e rest ih =>
    cases hek : (e.1 == k) <;> simp [lookupDep, hek, ih]

theorem lookupDep_insertDep_ne (m : List (String × String)) {k k' : String}
    (v : String) (hne : k' ≠ k) :
    lookupDep (insertDep m k' v) k = lookupDep m k := by
  unfold insertDep
  split
  · exact lookupDep_map_replace v hne m
  · exact lookupDep_append_single v hne m

theorem lookupDep_insertExports_mem {p n : String} :
    ∀ (es : List MExport) (m : List (String × String)),
      (lookupDep m n = some p ∨ MExport.inst n ∈ es) →
      lookupDep (insertExports p m es) n = some p := by
  intro es
  induction es with
  | nil =>
    intro m h
    rcases h with h | h
    · simpa [insertExports] using h
    · cases h
  | cons e rest ih =>
    intro m h
    cases e with
    | other =>
      apply ih
      rcases h with h | h
      · exact Or.inl h
      · rcases List.mem_cons.mp h with hc | hc
        · cases hc
        · exact Or.inr hc
    | inst n' =>
      show lookupDep (insertExports p (insertDep m n' p) rest) n = some p
      apply ih
      rcases h with h | h
      · by_cases hnn : n' = n
        · subst hnn
          exact Or.inl (lookupDep_insertDep_self m n' p)
        · exact Or.inl ((lookupDep_insertDep_ne m p hnn).trans h)
      · rcases List.mem_cons.mp h with hc | hc
        · obtain rfl : n = n' := by cases hc; rfl
          exact Or.inl (lookupDep_insertDep_self m n p)
        · exact Or.inr hc

theorem lookupDep_insertExports_not_mem {p n : String} :
    ∀ (es : List MExport) (m : List (String × String)),
      MExport.inst n ∉ es →
      lookupDep (insertExports p m es) n = lookupDep m n := by
  intro es
  induction es with
  | nil => intro m _; simp [insertExports]
  | cons e rest ih =>
    intro m h
    cases e with
    | other =>
      exact ih m (fun hc => h (List.mem_cons_of_mem _ hc))
    | inst n' =>
      have hne : n' ≠ n := by
        intro hc; subst hc; exact h (List.mem_cons_self _ _)
      show lookupDep (insertExports p (insertDep m n' p) rest) n = lookupDep m n
      rw [ih _ (fun hc => h (List.mem_cons_of_mem _ hc))]
      exact lookupDep_insertDep_ne m p hne

theorem composeConfig_after {n : String} :
    ∀ (stubs : List (String × List MExport)) (m : List (String × String)),
      (∀ q ∈ stubs, MExport.inst n ∉ q.2) →
      lookupDep (stubs.foldl (fun m stub => insertExports stub.1 m stub.2) m) n
        = lookupDep m n := by
  intro stubs
  induction stubs with
  | nil => intro m _; rfl
  | cons q rest ih =>
    intro m h
    rw [List.foldl_cons]
    rw [ih _ (fun r hr => h r (List.mem_cons_of_mem _ hr))]
    exact lookupDep_insertExports_not_mem q.2 m (h q (List.mem_cons_self _ _))

/-- **C2 counterexample.** Two stub binaries both exporting a top-level
instance named `users`: composition-input construction does not fail with
an ambiguous-dependency error — it succeeds, and the second file's path has
silently overwritten the first in the dependency map. -/
theorem compose_collision_no_error :
    composePlan [("a.wasm", [MExport.inst "users"]), ("b.wasm", [MExport.inst "users"])]
      = .ok [("users", "b.wasm")] := rfl

/-- **C2 (amended).** If two of the stub WASM files supplied to `compose`
declare a top-level instance export with the same name, composition-input
construction still succeeds (no ambiguous-dependency error is raised), and
the dependency map maps the colliding instance name to the path of the
last supplied stub that exports it: `compose` silently picks one of the
files. -/
theorem compose_collision_last_wins
    (stubs1 stubs2 : List (String × List MExport)) (p : String)
    (es : List MExport) (n : String)
    (hmem : MExport.inst n ∈ es)
    (hafter : ∀ q ∈ stubs2, MExport.inst n ∉ q.2) :
    composePlan (stubs1 ++ (p, es) :: stubs2)
      = .ok (composeConfig (stubs1 ++ (p, es) :: stubs2)) ∧
    lookupDep (composeConfig (stubs1 ++ (p, es) :: stubs2)) n = some p := by
  refine ⟨rfl, ?_⟩
  unfold composeConfig
  rw [List.foldl_append, List.foldl_cons]
  rw [composeConfig_after stubs2 _ hafter]
  exact lookupDep_insertExports_mem es _ (Or.inr hmem)

/-- Closed instance for `compose_collision_last_wins`: the `users` collision
between `a.wasm` and `b.wasm` resolves silently to `b.wasm`. -/
theorem compose_collision_last_wins_witness :
    composePlan [("a.wasm", [MExport.inst "users"]), ("b.wasm", [MExport.inst "users"])]
      = .ok (composeConfig [("a.wasm", [MExport.inst "users"]), ("b.wasm", [MExport.inst "users"])]) ∧
    lookupDep (composeConfig [("a.wasm", [MExport.inst "users"]), ("b.wasm", [MExport.inst "users"])]) "users"
      = some "b.wasm" :=
  compose_collision_last_wins [("a.wasm", [MExport.inst "users"])] []
    "b.wasm" [MExport.inst "users"] "users" (by simp) (by simp)

/-! ## Stub interface synthesis (`wasm-rpc-stubgen/src/main.rs:282-558`)

Types are modelled with resolved names inlined: `Type::Id` carries the
resolved type's optional name (an anonymous type makes
`wit_type_string` fail, main.rs:344), and an exported interface item
carries the interface itself (arena lookups of `Resolve` are inlined).
Literal `{` and `}` inside generated WIT text are written with the
character escapes `\x7b` and `\x7d`. -/

inductive WitType
  | bool | u8 | u16 | u32 | u64 | s8 | s16 | s32 | s64 | f32 | f64 | char | string
  | id (name : Option String)
deriving DecidableEq, Repr

/-- `wit_type_string` (main.rs:324-348). -/
def witTypeString : WitType → Except String String
  | .bool => .ok "bool"
  | .u8 => .ok "u8"
  | .u16 => .ok "u16"
  | .u32 => .ok "u32"
  | .u64 => .ok "u64"
  | .s8 => .ok "s8"
  | .s16 => .ok "s16"
  | .s32 => .ok "s32"
  | .s64 => .ok "s64"
  | .f32 => .ok "f32"
  | .f64 => .ok "f64"
  | .char => .ok "char"
  | .string => .ok "string"
  | .id (some n) => .ok n
  | .id none => .error "type has no name"

structure MFunctionParam where
  name : String
  typ : WitType
deriving DecidableEq, Repr

/-- `wit_parser::Results`: a single anonymous type or named results. -/
inductive MResults
  | anon (t : WitType)
  | named (ps : List MFunctionParam)
deriving DecidableEq, Repr

/-- `FunctionResultStub::is_empty` (main.rs:311-316). -/
def resultsIsEmpty : MResults → Bool
  | .anon _ => false
  | .named ps => ps.isEmpty

/-- `wit_parser::FunctionKind` (resource ids dropped). -/
inductive MFunctionKind
  | freestanding | method | staticFn | ctor
deriving DecidableEq, Repr

structure MFunction where
  name : String
  kind : MFunctionKind
  params : List MFunctionParam
  results : MResults
deriving DecidableEq, Repr

/-- Owner of a named type, with the interface owner's computed import path
(`namespace:name/interface-name`) inlined. -/
inductive MTypeOwner
  | world (name : String)
  | iface (path : String)
  | noOwner
deriving DecidableEq, Repr

structure MIfaceType where
  name : String
  owner : MTypeOwner
deriving DecidableEq, Repr

structure MInterface where
  name : Option String
  functions : List MFunction
  types : List MIfaceType
deriving DecidableEq, Repr

inductive MWorldItem
  | iface (i : MInterface)
  | func (f : MFunction)
  | ty (t : MIfaceType)
deriving DecidableEq, Repr

structure MWorld where
  name : String
  exports : List (String × MWorldItem)
deriving DecidableEq, Repr

structure StubImport where
  name : String
  path : String
deriving DecidableEq, Repr

/-- `collect_stub_imports` (main.rs:351-386): types owned by an interface
produce an import of the type's name from the interface path; world-owned
and unowned types produce nothing. -/
def collectStubImports (types : List MIfaceType) : List StubImport :=
  types.filterMap (fun t =>
    match t.owner with
    | MTypeOwner.iface path => some { name := t.name, path := path }
    | _ => none)

/-- `collect_stub_functions` (main.rs:439-474): keep freestanding functions
only (shape is preserved). -/
def collectStubFunctions (fns : List MFunction) : List MFunction :=
  fns.filter (fun f => f.kind == MFunctionKind.freestanding)

structure InterfaceStub where
  name : String
  functions : List MFunction
  imports : List StubImport
deriving DecidableEq, Repr

/-- `collect_stub_interfaces` (main.rs:388-437): one stub per exported
interface (named after the interface, falling back to the export key),
plus — when the world exports standalone functions — one stub named after
the world collecting them together with imports of the world's standalone
type exports. -/
def collectStubInterfaces (world : MWorld) : List InterfaceStub :=
  (world.exports.filterMap (fun e =>
    match e.2 with
    | MWorldItem.iface i =>
      some { name := i.name.getD e.1,
             functions := collectStubFunctions i.functions,
             imports := collectStubImports i.types }
    | _ => none))
  ++
  (if (world.exports.filterMap (fun e =>
        match e.2 with
        | MWorldItem.func f => some f
        | _ => none)).isEmpty then []
   else
    [{ name := world.name,
       functions := collectStubFunctions (world.exports.filterMap (fun e =>
         match e.2 with
         | MWorldItem.func f => some f
         | _ => none)),
       imports := collectStubImports (world.exports.filterMap (fun e =>
         match e.2 with
         | MWorldItem.ty t => some { name := e.1, owner := t.owner }
         | _ => none)) }])

/-- The `IndexSet` collection of all imports: deduplicate keeping first
occurrence order. -/
def dedupKeep (l : List StubImport) : List StubImport :=
  l.foldl (fun acc i => if i ∈ acc then acc else acc ++ [i]) []

/-- Rendering of one resource method (the function loop of
`generate_stub_wit`, main.rs:506-543). -/
def renderFunction (f : MFunction) : Except String String := do
  let ps ← f.params.mapM (fun p => (witTypeString p.typ).map (fun t => p.name ++ ": " ++ t))
  let head := "    " ++ f.name ++ ": func(" ++ String.intercalate ", " ps ++ ")"
  if resultsIsEmpty f.results then
    .ok (head ++ ";\n")
  else
    match f.results with
    | MResults.anon t => do
      let ts ← witTypeString t
      .ok (head ++ " -> " ++ ts ++ ";\n")
    | MResults.named rps => do
      let rs ← rps.mapM (fun p => (witTypeString p.typ).map (fun t => p.name ++ ": " ++ t))
      .ok (head ++ " -> (" ++ String.intercalate ", " rs ++ ");\n")

/-- Rendering of one stub resource block (main.rs:503-547). -/
def renderInterface (i : InterfaceStub) : Except String String := do
  let fns ← i.functions.mapM renderFunction
  .ok ("  resource " ++ i.name ++ " \x7b\n"
    ++ "    constructor(location: uri);\n"
    ++ String.join fns
    ++ "  \x7d\n" ++ "\n")

/-- `generate_stub_wit` (main.rs:476-558): the full generated document. -/
def generateStubWit (packageName : String) (world : MWorld)
    (targetWorldName : String) : Except String String := do
  let interfaces := collectStubInterfaces world
  let allImports := dedupKeep ((interfaces.map (fun i => i.imports)).flatten)
  let blocks ← interfaces.mapM renderInterface
  .ok ("package " ++ packageName ++ ";\n"
    ++ "\n"
    ++ "interface stub-" ++ world.name ++ " \x7b\n"
    ++ "  use golem:rpc/types@0.1.0.\x7buri\x7d;\n"
    ++ String.join (allImports.map (fun i => "  use " ++ i.path ++ ".\x7b" ++ i.name ++ "\x7d;\n"))
    ++ "\n"
    ++ String.join blocks
    ++ "\x7d\n"
    ++ "\n"
    ++ "world " ++ targetWorldName ++ " \x7b\n"
    ++ "  export stub-" ++ world.name ++ ";\n"
    ++ "\x7d\n")

/-- The world name `main` passes to `generate_stub_wit` (main.rs:102):
`"wasm-rpc-stub-" ++ selected_world`. -/
def mainStubWorldName (w : String) : String := "wasm-rpc-stub-" ++ w

/-- Substring test on character lists. -/
def isInfixL (needle : List Char) : List Char → Bool
  | [] => needle.isPrefixOf []
  | c :: rest => needle.isPrefixOf (c :: rest) || isInfixL needle rest

/-- Substring test on strings. -/
def containsStr (needle hay : String) : Bool := isInfixL needle.data hay.data

/-- The scenario world of the claim: world `api` with interface `users`
exporting `get-name(id: u64) -> string`. -/
def scenarioWorld : MWorld :=
  { name := "api",
    exports := [("users", MWorldItem.iface
      { name := some "users",
        functions := [{ name := "get-name", kind := MFunctionKind.freestanding,
                        params := [{ name := "id", typ := WitType.u64 }],
                        results := MResults.anon WitType.string }],
        types := [] })] }

/-- Stub synthesis on the scenario world, invoked the way `main` invokes it
(main.rs:100-111). -/
def scenarioStubText : Except String String :=
  generateStubWit "test:main" scenarioWorld (mainStubWorldName "api")

/-- The document the scenario produces. -/
def scenarioDoc : String :=
  "package test:main;\n\ninterface stub-api \x7b\n  use golem:rpc/types@0.1.0.\x7buri\x7d;\n\n  resource users \x7b\n    constructor(location: uri);\n    get-name: func(id: u64) -> string;\n  \x7d\n\n\x7d\n\nworld wasm-rpc-stub-api \x7b\n  export stub-api;\n\x7d\n"

/-- **C6 counterexample.** In the scenario, the trailing world declaration
is named `wasm-rpc-stub-api`, not `stub-api`: `main` passes
`"wasm-rpc-stub-" ++ world` as the target world name (main.rs:102), so no
`world stub-api` declaration appears in the document. -/
theorem stub_scenario_world_name_cex :
    scenarioStubText = .ok scenarioDoc ∧
    containsStr "world stub-api \x7b" scenarioDoc = false :=
  ⟨rfl, by decide⟩

/-- **C6 (amended).** Synthesizing a stub for world `api` containing
interface `users` exporting `get-name(id: u64) -> string` produces a
document with stub interface `stub-api` containing resource `users` with
`constructor(location: uri)` and method `get-name: func(id: u64) -> string`,
and that interface is exported by a trailing world declaration named
`wasm-rpc-stub-api` (the `"wasm-rpc-stub-"` prefix of main.rs:102). -/
theorem stub_scenario_content :
    scenarioStubText = .ok scenarioDoc ∧
    containsStr "  resource users \x7b" scenarioDoc = true ∧
    containsStr "    constructor(location: uri);" scenarioDoc = true ∧
    containsStr "    get-name: func(id: u64) -> string;" scenarioDoc = true ∧
    containsStr "world wasm-rpc-stub-api \x7b" scenarioDoc = true ∧
    containsStr "  export stub-api;" scenarioDoc = true :=
  ⟨rfl, by decide, by decide, by decide, by decide, by decide⟩

/-- A world exporting nothing at all. -/
def emptyWorld : MWorld := { name := "empty", exports := [] }

/-- The document synthesized for a world with neither exported interfaces
nor exported functions: an empty stub interface (string spelled with the
same concatenation structure `generate_stub_wit` produces). -/
def emptyStubDoc (pn wn twn : String) : String :=
  "package " ++ pn ++ ";\n"
    ++ "\n"
    ++ "interface stub-" ++ wn ++ " \x7b\n"
    ++ "  use golem:rpc/types@0.1.0.\x7buri\x7d;\n"
    ++ String.join ((dedupKeep []).map (fun i => "  use " ++ i.path ++ ".\x7b" ++ i.name ++ "\x7d;\n"))
    ++ "\n"
    ++ String.join []
    ++ "\x7d\n"
    ++ "\n"
    ++ "world " ++ twn ++ " \x7b\n"
    ++ "  export stub-" ++ wn ++ ";\n"
    ++ "\x7d\n"

/-- **C7 counterexample.** Stub synthesis applied to a world exporting
nothing does not fail: `collect_stub_interfaces` returns an empty list and
`generate_stub_wit` happily writes a document with an empty stub
interface. -/
theorem stub_empty_world_no_error :
    generateStubWit "test:main" emptyWorld (mainStubWorldName "empty")
      = .ok "package test:main;\n\ninterface stub-empty \x7b\n  use golem:rpc/types@0.1.0.\x7buri\x7d;\n\n\x7d\n\nworld wasm-rpc-stub-empty \x7b\n  export stub-empty;\n\x7d\n" :=
  rfl

theorem collectStubInterfaces_empty {world : MWorld}
    (h : ∀ e ∈ world.exports, ∃ t, e.2 = MWorldItem.ty t) :
    collectStubInterfaces world = [] := by
  unfold collectStubInterfaces
  have hif : world.exports.filterMap (fun e =>
      match e.2 with
      | MWorldItem.iface i =>
        some { name := i.name.getD e.1,
               functions := collectStubFunctions i.functions,
               imports := collectStubImports i.types }
      | _ => none) = ([] : List InterfaceStub) := by
    rw [List.filterMap_eq_nil_iff]
    intro e he
    obtain ⟨t, ht⟩ := h e he
    rw [ht]
  have hfn : world.exports.filterMap (fun e =>
      match e.2 with
      | MWorldItem.func f => some f
      | _ => none) = ([] : List MFunction) := by
    rw [List.filterMap_eq_nil_iff]
    intro e he
    obtain ⟨t, ht⟩ := h e he
    rw [ht]
  rw [hif, hfn]
  simp

/-- **C7 (amended).** Stub synthesis applied to a world that exports
neither interfaces nor standalone functions (only type exports, if
anything) does not fail: it succeeds and produces a document whose stub
interface contains no resources. -/
theorem stub_empty_world_succeeds {pn twn : String} {world : MWorld}
    (h : ∀ e ∈ world.exports, ∃ t, e.2 = MWorldItem.ty t) :
    generateStubWit pn world twn = .ok (emptyStubDoc pn world.name twn) := by
  unfold generateStubWit emptyStubDoc
  rw [collectStubInterfaces_empty h]
  rfl

/-- Closed instance for `stub_empty_world_succeeds` at the empty world. -/
theorem stub_empty_world_succeeds_witness :
    generateStubWit "test:main" emptyWorld (mainStubWorldName "empty")
      = .ok (emptyStubDoc "test:main" "empty" (mainStubWorldName "empty")) :=
  stub_empty_world_succeeds (by intro e he; cases he)

/-! ## The dependency-merge engine (`add_stub_dependency`, lib.rs:276-424)

Inputs are modelled post-parse: the destination package, the parsed
`_stub.wit` package, the stub's dependency directories (directory name,
parsed package name, contained files), the destination filesystem (an
association list from paths relative to the destination WIT root to file
contents), and the `Cargo.toml` state of the destination's parent.
`wit_parser::PackageName` keeps its three components (namespace, name,
optional version) because `PartialEq` on it compares all three. -/

structure MPackageName where
  nsp : String
  name : String
  version : Option String
deriving DecidableEq, Repr

structure MUnresolvedPackage where
  name : MPackageName
  interfaces : List (Option String)
  worlds : List String
deriving DecidableEq, Repr

structure MDepDir where
  dirName : String
  pkg : MPackageName
  files : List (String × String)
deriving DecidableEq, Repr

/-- `internal::is_invalid_dependency` (lib.rs:530-539): the dependency's
full package name equals the destination's, or it has the destination's
namespace and the destination's name suffixed with `-stub` (any version). -/
def isInvalidDependency (destination dependency : MPackageName) : Bool :=
  decide (dependency = destination) ||
    (decide (dependency.nsp = destination.nsp) &&
     decide (dependency.name = destination.name ++ "-stub"))

/-- `internal::find_if_same_package` (lib.rs:481-497): keep a dependency
directory iff its package name differs from the destination's. -/
def findIfSamePackage (depName destName : MPackageName) : Bool :=
  !(decide (depName = destName))

/-- The whitespace class used for the `\s` of the self-import regex
(lib.rs:553-560), restricted to the ASCII whitespace occurring in WIT
files. -/
def isWsChar (c : Char) : Bool :=
  c = ' ' || c = '\t' || c = '\n' || c = '\r'

/-- One attempted match of the regex
`import\s+<namespace>:<name>-stub(/[^;]*)?;` (lib.rs:553-560) at the head
of `s`; returns the remainder after the match.  `pkg` is the escaped
literal `<namespace>:<name>-stub`; the optional group consumes `/`
followed greedily by non-`;` characters; the statement ends at `;`. -/
def matchAfterPkg : List Char → Option (List Char)
  | ';' :: rest => some rest
  | '/' :: rest =>
    (match rest.dropWhile (fun c => !(c = ';')) with
     | ';' :: rest2 => some rest2
     | _ => none)
  | _ => none

def matchSelfImport (pkg : List Char) (s : List Char) : Option (List Char) :=
  match stripLit "import".data s with
  | none => none
  | some s1 =>
    match s1.head? with
    | none => none
    | some c =>
      if isWsChar c then
        match stripLit pkg (s1.dropWhile isWsChar) with
        | none => none
        | some s3 => matchAfterPkg s3
      else none

theorem length_dropWhile_le' (q : Char → Bool) (l : List Char) :
    (l.dropWhile q).length ≤ l.length := by
  induction l with
  | nil => simp
  | cons c rest ih =>
    rw [List.dropWhile_cons]
    split
    · exact Nat.le_succ_of_le ih
    · simp

theorem matchAfterPkg_length {s rem : List Char}
    (h : matchAfterPkg s = some rem) : rem.length < s.length := by
  unfold matchAfterPkg at h
  split at h
  · cases h
    simp
  · rename_i rest
    split at h
    · rename_i rest2 hdw
      cases h
      have h1 : (rest.dropWhile (fun c => !(c = ';'))).length ≤ rest.length :=
        length_dropWhile_le' _ rest
      rw [hdw] at h1
      simp only [List.length_cons] at h1 ⊢
      omega
    · cases h
  · cases h

theorem matchSelfImport_length {pkg s rem : List Char}
    (h : matchSelfImport pkg s = some rem) : rem.length < s.length := by
  unfold matchSelfImport at h
  split at h
  · cases h
  · rename_i s1 hs1
    have hlen1 : s1.length + 6 = s.length := by
      simpa using stripLit_some_length hs1
    split at h
    · cases h
    · split at h
      · split at h
        · cases h
        · rename_i s3 hs3
          have hlen3 : s3.length ≤ s1.length := by
            have h1 := stripLit_some_length hs3
            have h2 := length_dropWhile_le' isWsChar s1
            omega
          have := matchAfterPkg_length h
          omega
      · cases h

/-- `replace_self_imports_from_dependencies` (lib.rs:543-563): delete every
(leftmost, non-overlapping) match of the self-import regex from the file
content.  The fuel (instantiated with the string length, which every match
strictly decreases) makes the recursion structural. -/
def stripImportsGo (pkg : List Char) : Nat → List Char → List Char
  | _, [] => []
  | 0, s => s
  | fuel + 1, c :: rest =>
    match matchSelfImport pkg (c :: rest) with
    | some rem => stripImportsGo pkg fuel rem
    | none => c :: stripImportsGo pkg fuel rest

/-- Deletion of all regex matches from a file content. -/
def stripImports (pkg s : List Char) : List Char := stripImportsGo pkg s.length s

theorem stripImportsGo_fuel {pkg : List Char} :
    ∀ (f : Nat) (s : List Char) (g : Nat), s.length ≤ f → s.length ≤ g →
      stripImportsGo pkg f s = stripImportsGo pkg g s := by
  intro f
  induction f with
  | zero =>
    intro s g hf hg
    have hs : s = [] := List.eq_nil_of_length_eq_zero (Nat.le_zero.mp hf)
    subst hs
    cases g <;> rfl
  | succ f ih =>
    intro s g hf hg
    cases s with
    | nil => cases g <;> rfl
    | cons c rest =>
      cases g with
      | zero => simp at hg
      | succ g' =>
        simp only [stripImportsGo]
        simp only [List.length_cons] at hf hg
        cases hm : matchSelfImport pkg (c :: rest) with
        | some rem =>
          have hlt := matchSelfImport_length hm
          simp only [List.length_cons] at hlt
          exact ih rem g' (by omega) (by omega)
        | none =>
          exact congrArg (c :: ·) (ih rest g' (by omega) (by omega))

theorem stripImports_cons_some {pkg : List Char} {c : Char} {rest rem : List Char}
    (h : matchSelfImport pkg (c :: rest) = some rem) :
    stripImports pkg (c :: rest) = stripImports pkg rem := by
  unfold stripImports
  simp only [List.length_cons, stripImportsGo, h]
  have hlt := matchSelfImport_length h
  simp only [List.length_cons] at hlt
  exact stripImportsGo_fuel rest.length rem rem.length (by omega) le_rfl

theorem stripImports_cons_none {pkg : List Char} {c : Char} {rest : List Char}
    (h : matchSelfImport pkg (c :: rest) = none) :
    stripImports pkg (c :: rest) = c :: stripImports pkg rest := by
  unfold stripImports
  simp only [List.length_cons, stripImportsGo, h]

/-- The escaped literal `<namespace>:<name>-stub` of the destination's
derived stub package (lib.rs:548-551). -/
def selfStubLit (destination : MPackageName) : List Char :=
  (destination.nsp ++ ":" ++ destination.name ++ "-stub").data

/-- `replace_self_imports_from_dependencies` on a whole file content. -/
def replaceSelfImports (destination : MPackageName) (content : String) : String :=
  ⟨stripImports (selfStubLit destination) content.data⟩

/-- The planned filesystem mutations of the merge engine
(`WitAction`, used in lib.rs:335-396).  A `copyDepDir` carries the copied
directory's name and files; a `copyDepWit` copies the stub's main document
into a dependency directory; a `writeWit` writes generated or rewritten
text. -/
inductive WitAction
  | copyDepDir (dirName : String) (files : List (String × String))
  | copyDepWit (dirName : String) (content : String)
  | writeWit (dirName : String) (fileName : String) (content : String)
deriving DecidableEq, Repr

/-- The files (destination-relative path, content) an action materializes
under the destination WIT root's `deps` directory (layout of §6 of the
spec, mirrored by both generation and merge). -/
def actionFiles : WitAction → List (String × String)
  | .copyDepDir d files => files.map (fun f => ("deps/" ++ d ++ "/" ++ f.1, f.2))
  | .copyDepWit d content => [("deps/" ++ d ++ "/_stub.wit", content)]
  | .writeWit d fn content => [("deps/" ++ d ++ "/" ++ fn, content)]

/-- Modelled from the spec: `verify_action` of the repository's `wit`
module (not under src/): an action passes verification when each file it
would write either does not yet exist at its target path or already has
identical content, unless the overwrite flag forces acceptance. -/
def verifyAction (fs : List (String × String)) (overwrite : Bool)
    (a : WitAction) : Bool :=
  (actionFiles a).all (fun f =>
    match lookupDep fs f.1 with
    | none => true
    | some existing => existing == f.2 || overwrite)

/-- Modelled from the spec: `WitAction::perform` writes each of the
action's files into the destination tree. -/
def performAction (fs : List (String × String)) (a : WitAction) :
    List (String × String) :=
  (actionFiles a).foldl (fun fs f => insertDep fs f.1 f.2) fs

/-- Modelled from the spec: `WitAction::get_dep_dir_name` names the
dependency directory the action targets. -/
def getDepDirName : WitAction → String
  | .copyDepDir d _ => d
  | .copyDepWit d _ => d
  | .writeWit d _ _ => d

/-- The verify-then-apply phase of `add_stub_dependency` (lib.rs:385-397):
all actions are verified against the current destination state; if any
fails, nothing is performed. -/
def applyAll (fs : List (String × String)) (actions : List WitAction)
    (overwrite : Bool) : List (String × String) :=
  if actions.all (verifyAction fs overwrite) then
    actions.foldl performAction fs
  else fs

/-- State of the destination parent's `Cargo.toml`: validity as a
cargo-component manifest, and its recorded dependency-directory names. -/
structure MCargo where
  valid : Bool
  deps : List String
deriving DecidableEq, Repr

/-- The post-parse inputs of one `add_stub_dependency` invocation. -/
structure AddInput where
  destPkg : MUnresolvedPackage
  stubPkg : MUnresolvedPackage
  stubMainContent : String
  sourceDeps : List MDepDir
  inlinedStub : Except String String
  destFs : List (String × String)
  parentExists : Bool
  cargoToml : Option MCargo

/-- Errors of the merge engine: a Rust panic (from `expect`) or an
`anyhow` error. -/
inductive MErr
  | panic (msg : String)
  | err (msg : String)
deriving DecidableEq, Repr

/-- `format!("{}_{}", namespace, name)` (lib.rs:341-344, 378-381). -/
def mainWitDirName (n : MPackageName) : String := n.nsp ++ "_" ++ n.name

/-- The action plan of the external-target branch of `add_stub_dependency`
(lib.rs:347-382): per dependency directory, skip it if invalid, otherwise
plan a write of each file with self-stub imports stripped; finally plan the
copy of the stub's main document. -/
def planExternalActions (destPkg : MUnresolvedPackage) (mainDirName : String)
    (mainContent : String) (sourceDeps : List MDepDir) : List WitAction :=
  (sourceDeps.map (fun d =>
    if isInvalidDependency destPkg.name d.pkg then []
    else d.files.map (fun f =>
      WitAction.writeWit d.dirName f.1 (replaceSelfImports destPkg.name f.2)))).flatten
  ++ [WitAction.copyDepWit mainDirName mainContent]

/-- The action plan of the destination-owns-the-world branch
(lib.rs:307-346): keep dependency directories whose package differs from
the destination's, then write the re-generated inlined stub. -/
def planOwnedActions (destPkg : MUnresolvedPackage) (stubPkgName : MPackageName)
    (sourceDeps : List MDepDir) (newStub : String) : List WitAction :=
  (sourceDeps.filter (fun d => findIfSamePackage d.pkg destPkg.name)).map
    (fun d => WitAction.copyDepDir d.dirName d.files)
  ++ [WitAction.writeWit (mainWitDirName stubPkgName) "_stub.wit" newStub]

/-- Steps of `add_stub_dependency` after the `-stub` suffix strip
(lib.rs:296-383): same-package check, world-name recovery, ownership test,
branch-specific planning. -/
def planAfterStrip (inp : AddInput) (strippedName : String) :
    Except String (List WitAction) :=
  if inp.destPkg.name = { inp.stubPkg.name with name := strippedName } then
    .error "Both the caller and the target components are using the same package name"
  else
    match findWorldName inp.stubPkg.interfaces with
    | .error e => .error e
    | .ok worldName =>
      if worldName ∈ inp.destPkg.worlds then
        match inp.inlinedStub with
        | .error e => .error e
        | .ok newStub =>
          .ok (planOwnedActions inp.destPkg inp.stubPkg.name inp.sourceDeps newStub)
      else
        .ok (planExternalActions inp.destPkg (mainWitDirName inp.stubPkg.name)
          inp.stubMainContent inp.sourceDeps)

/-- The planning phase of `add_stub_dependency` (lib.rs:276-383): the
`expect` on `strip_suffix("-stub")` (lib.rs:287-295) is the only panic. -/
def plannedActions (inp : AddInput) : Except MErr (List WitAction) :=
  match stripSuffixS "-stub" inp.stubPkg.name.name with
  | none => .error (MErr.panic "Unexpected stub package name")
  | some strippedName => (planAfterStrip inp strippedName).mapError MErr.err

/-- The Cargo.toml follow-up of `add_stub_dependency` (lib.rs:399-422):
performed with the full planned action list regardless of whether the
actions were applied. -/
def cargoPhase (inp : AddInput) (updateCargo : Bool) (actions : List WitAction)
    (fs : List (String × String)) :
    Except String Unit × List (String × String) × Option MCargo :=
  if inp.parentExists then
    match inp.cargoToml with
    | some c =>
      if updateCargo then
        if c.valid then
          (.ok (), fs, some { c with deps := c.deps ++ actions.map getDepDirName })
        else (.error "The file is not a valid cargo-component project", fs, some c)
      else (.ok (), fs, some c)
    | none =>
      if updateCargo then
        (.error "Cannot update Cargo.toml file because it does not exist or is not a file", fs, none)
      else (.ok (), fs, none)
  else
    if updateCargo then
      (.error "Cannot update the Cargo.toml file because parent directory of the destination WIT root does not exist.", fs, inp.cargoToml)
    else (.ok (), fs, inp.cargoToml)

/-- `add_stub_dependency` (lib.rs:276-424): plan, verify-then-apply,
Cargo.toml follow-up.  Returns the command result, the destination
filesystem, and the Cargo.toml state. -/
def addStubDependency (inp : AddInput) (overwrite updateCargo : Bool) :
    Except MErr Unit × List (String × String) × Option MCargo :=
  match plannedActions inp with
  | .error e => (.error e, inp.destFs, inp.cargoToml)
  | .ok actions =>
    let fs2 := applyAll inp.destFs actions overwrite
    let r := cargoPhase inp updateCargo actions fs2
    (r.1.mapError MErr.err, r.2.1, r.2.2)

theorem cargoPhase_fs (inp : AddInput) (u : Bool) (acts : List WitAction)
    (fs : List (String × String)) : (cargoPhase inp u acts fs).2.1 = fs := by
  unfold cargoPhase
  split
  · split
    · split
      · split <;> rfl
      · rfl
    · split <;> rfl
  · split <;> rfl

theorem all_verify_false {fs : List (String × String)} {acts : List WitAction}
    {a : WitAction} (ha : a ∈ acts) (hv : verifyAction fs false a = false) :
    acts.all (verifyAction fs false) = false := by
  rw [List.all_eq_false]
  exact ⟨a, ha, by simp [hv]⟩

/-- **C1.** If at least one planned action targets a path whose existing
content differs from the action's planned content and the overwrite flag
is not set, then no planned action is applied: the destination filesystem
after `add_stub_dependency` is byte-identical to before (whatever the
Cargo.toml update flag). -/
theorem add_stub_dependency_conflict_preserves_fs
    {inp : AddInput} {acts : List WitAction} (u : Bool)
    (hplan : plannedActions inp = .ok acts)
    (hconf : ∃ a ∈ acts, ∃ f ∈ actionFiles a, ∃ existing,
      lookupDep inp.destFs f.1 = some existing ∧ existing ≠ f.2) :
    (addStubDependency inp false u).2.1 = inp.destFs := by
  unfold addStubDependency
  rw [hplan]
  have hfail : acts.all (verifyAction inp.destFs false) = false := by
    obtain ⟨a, ha, f, hf, existing, hex, hne⟩ := hconf
    apply all_verify_false ha
    unfold verifyAction
    rw [List.all_eq_false]
    refine ⟨f, hf, ?_⟩
    rw [hex]
    simp [hne]
  simp only [applyAll, hfail, Bool.false_eq_true, if_false]
  exact cargoPhase_fs inp u acts inp.destFs

/-- The concrete conflicting merge used as witness: one dependency file
exists at the destination with different content. -/
def conflictInput : AddInput :=
  { destPkg := { name := { nsp := "ns", name := "caller", version := none },
                 interfaces := [], worlds := [] },
    stubPkg := { name := { nsp := "ns", name := "api-stub", version := none },
                 interfaces := [some "stub-api"], worlds := [] },
    stubMainContent := "stub main",
    sourceDeps := [{ dirName := "ns_dep",
                     pkg := { nsp := "ns", name := "dep", version := none },
                     files := [("dep.wit", "new content")] }],
    inlinedStub := .ok "unused",
    destFs := [("deps/ns_dep/dep.wit", "old content")],
    parentExists := true,
    cargoToml := some { valid := true, deps := ["existing"] } }

/-- The actions `add_stub_dependency` plans for `conflictInput`. -/
def conflictActs : List WitAction :=
  [WitAction.writeWit "ns_dep" "dep.wit" "new content",
   WitAction.copyDepWit "ns_api-stub" "stub main"]

/-- Closed instance for `add_stub_dependency_conflict_preserves_fs`. -/
theorem add_stub_dependency_conflict_preserves_fs_witness :
    plannedActions conflictInput = .ok conflictActs ∧
    (addStubDependency conflictInput false false).2.1 = conflictInput.destFs := by
  have hplan : plannedActions conflictInput = .ok conflictActs := rfl
  refine ⟨hplan, add_stub_dependency_conflict_preserves_fs false hplan ?_⟩
  refine ⟨WitAction.writeWit "ns_dep" "dep.wit" "new content", by simp [conflictActs],
    ("deps/ns_dep/dep.wit", "new content"), by simp [actionFiles],
    "old content", rfl, by decide⟩

/-- **C9.** When at least one planned action fails verification and the
overwrite flag is not set, `add_stub_dependency` nevertheless returns
success, and — when the update flag is set and a valid Cargo.toml exists in
the destination's parent — it still appends the planned dependency
directory names to that manifest, although no action was applied. -/
theorem add_stub_dependency_cargo_updated_despite_conflict
    {inp : AddInput} {acts : List WitAction} {c : MCargo}
    (hplan : plannedActions inp = .ok acts)
    (hconf : ∃ a ∈ acts, verifyAction inp.destFs false a = false)
    (hparent : inp.parentExists = true)
    (hcargo : inp.cargoToml = some c) (hvalid : c.valid = true) :
    addStubDependency inp false true
      = (.ok (), inp.destFs, some { c with deps := c.deps ++ acts.map getDepDirName }) := by
  unfold addStubDependency
  rw [hplan]
  obtain ⟨a, ha, hv⟩ := hconf
  have hfail := all_verify_false ha hv
  simp only [applyAll, hfail, Bool.false_eq_true, if_false]
  unfold cargoPhase
  rw [hparent, hcargo]
  simp [hvalid, Except.mapError]

/-- Closed instance for `add_stub_dependency_cargo_updated_despite_conflict`
on `conflictInput`: the manifest gains the two planned directory names even
though nothing was copied. -/
theorem add_stub_dependency_cargo_updated_despite_conflict_witness :
    addStubDependency conflictInput false true
      = (.ok (), conflictInput.destFs,
         some { valid := true, deps := ["existing", "ns_dep", "ns_api-stub"] }) := by
  have hplan : plannedActions conflictInput = .ok conflictActs := rfl
  have h := add_stub_dependency_cargo_updated_despite_conflict hplan
    ⟨WitAction.writeWit "ns_dep" "dep.wit" "new content", by simp [conflictActs], by decide⟩
    rfl rfl rfl
  simpa using h

theorem stripSuffixL_eq_none_iff {suf s : List Char} :
    stripSuffixL suf s = none ↔ ¬ (suf <:+ s) := by
  unfold stripSuffixL
  by_cases hle : suf.length ≤ s.length
  · rw [if_pos hle]
    by_cases heq : s.drop (s.length - suf.length) = suf
    · rw [if_pos heq]
      have h2 := List.take_append_drop (s.length - suf.length) s
      rw [heq] at h2
      have hsuf : suf <:+ s := ⟨s.take (s.length - suf.length), h2⟩
      exact iff_of_false (by simp) (by simp [hsuf])
    · rw [if_neg heq]
      refine iff_of_true rfl (fun hsuf => ?_)
      obtain ⟨t, ht⟩ := hsuf
      apply heq
      have hlt : t.length = s.length - suf.length := by
        have hl := congrArg List.length ht; simp at hl; omega
      rw [← hlt]
      conv_lhs => rw [← ht]
      exact List.drop_left t suf
  · rw [if_neg hle]
    exact iff_of_true rfl (fun hsuf => hle hsuf.length_le)

theorem stripSuffixS_eq_none_iff {suf s : String} :
    stripSuffixS suf s = none ↔ ¬ (suf.data <:+ s.data) := by
  unfold stripSuffixS
  rw [Option.map_eq_none', stripSuffixL_eq_none_iff]

/-- **C10.** `add_stub_dependency` panics (via `expect`, modelled as the
distinguished `MErr.panic` outcome) — instead of returning an ordinary
error — whenever the stub root's main document declares a package name
that does not end with `-stub`; and under the precondition that the
package name does end with `-stub`, this panic branch is unreachable. -/
theorem add_stub_dependency_expect_panics :
    (∀ (inp : AddInput) (ov uc : Bool),
      ¬ ("-stub".data <:+ inp.stubPkg.name.name.data) →
      (addStubDependency inp ov uc).1
        = .error (MErr.panic "Unexpected stub package name")) ∧
    (∀ (inp : AddInput) (ov uc : Bool),
      ("-stub".data <:+ inp.stubPkg.name.name.data) →
      (addStubDependency inp ov uc).1
        ≠ .error (MErr.panic "Unexpected stub package name")) := by
  constructor
  · intro inp ov uc h
    have hstrip : stripSuffixS "-stub" inp.stubPkg.name.name = none :=
      stripSuffixS_eq_none_iff.mpr h
    unfold addStubDependency plannedActions
    rw [hstrip]
  · intro inp ov uc h
    cases hstrip : stripSuffixS "-stub" inp.stubPkg.name.name with
    | none => exact absurd h (stripSuffixS_eq_none_iff.mp hstrip)
    | some stripped =>
      unfold addStubDependency plannedActions
      rw [hstrip]
      cases hpa : planAfterStrip inp stripped with
      | error e => simp [hpa, Except.mapError]
      | ok acts =>
        simp only [hpa, Except.mapError]
        cases hr : (cargoPhase inp uc acts (applyAll inp.destFs acts ov)).1 with
        | error e => simp [hr]
        | ok r => simp [hr]

/-- Concrete input whose stub package name `api` lacks the `-stub`
suffix. -/
def badNameInput : AddInput :=
  { conflictInput with
    stubPkg := { name := { nsp := "ns", name := "api", version := none },
                 interfaces := [some "stub-api"], worlds := [] } }

/-- Closed instance for `add_stub_dependency_expect_panics`: the bad name
panics, the good name (`conflictInput`, package `api-stub`) does not. -/
theorem add_stub_dependency_expect_panics_witness :
    (addStubDependency badNameInput false false).1
      = .error (MErr.panic "Unexpected stub package name") ∧
    (addStubDependency conflictInput false false).1
      ≠ .error (MErr.panic "Unexpected stub package name") :=
  ⟨add_stub_dependency_expect_panics.1 badNameInput false false (by decide),
   add_stub_dependency_expect_panics.2 conflictInput false false (by decide)⟩

/-! ## Semantics of self-import stripping

A dependency WIT file is segmented into self-stub import statements and
other text; `stripImports` removes exactly the import statements.  -/

/-- A segment of a dependency file: a self-stub import statement
(`import` + whitespace + the stub package literal + optional `/`-subpath +
`;`), or any other stretch of text. -/
inductive WitSeg
  | selfImport (ws : List Char) (path : Option (List Char))
  | other (t : List Char)
deriving DecidableEq, Repr

def isOtherSeg : WitSeg → Bool
  | .other _ => true
  | _ => false

/-- Text of one segment, for the stub package literal `pkg`. -/
def renderSeg (pkg : List Char) : WitSeg → List Char
  | .selfImport ws path =>
    "import".data ++ ws ++ pkg ++
      (match path with | some p => '/' :: p | none => []) ++ [';']
  | .other t => t

/-- Text of a segmented file. -/
def renderSegs (pkg : List Char) (segs : List WitSeg) : List Char :=
  (segs.map (renderSeg pkg)).flatten

/-- The non-import text of a segmented file. -/
def keepOther : List WitSeg → List Char
  | [] => []
  | WitSeg.selfImport _ _ :: rest => keepOther rest
  | WitSeg.other t :: rest => t ++ keepOther rest

/-- Well-formedness of one segment: import whitespace is nonempty and
whitespace-only, subpaths contain no `;`, and other text contains no
occurrence of the word `import`. -/
def goodSeg : WitSeg → Bool
  | .selfImport ws path =>
    (!ws.isEmpty) && ws.all isWsChar &&
      (match path with
       | none => true
       | some p => p.all (fun c => !(c = ';')))
  | .other t => !(isInfixL "import".data t)

/-- No two adjacent `other` segments (adjacent plain text is one
segment). -/
def noConsecOthers : List WitSeg → Bool
  | [] => true
  | [_] => true
  | a :: b :: rest => (!(isOtherSeg a && isOtherSeg b)) && noConsecOthers (b :: rest)

theorem isInfixL_iff {needle hay : List Char} :
    isInfixL needle hay = true ↔ needle <:+: hay := by
  induction hay with
  | nil =>
    simp [isInfixL, List.isPrefixOf_iff_prefix, List.prefix_nil, List.infix_nil]
  | cons c rest ih =>
    simp only [isInfixL, Bool.or_eq_true, List.isPrefixOf_iff_prefix, ih]
    exact (List.infix_cons_iff).symm

theorem dropWhile_append_all {q : Char → Bool} :
    ∀ {l : List Char}, (∀ c ∈ l, q c = true) → ∀ r, (l ++ r).dropWhile q = r.dropWhile q := by
  intro l
  induction l with
  | nil => intro _ r; rfl
  | cons c cs ih =>
    intro h r
    rw [List.cons_append, List.dropWhile_cons_of_pos (h c (by simp))]
    exact ih (fun x hx => h x (by simp [hx])) r

theorem matchSelfImport_render {pkg ws : List Char} {path : Option (List Char)}
    (z : List Char)
    (hws : ws ≠ []) (hwsall : ∀ c ∈ ws, isWsChar c = true)
    (hpath : ∀ p, path = some p → ∀ c ∈ p, c ≠ ';')
    (hpkg : pkg ≠ []) (hpkghead : ∀ c, pkg.head? = some c → isWsChar c = false) :
    matchSelfImport pkg (renderSeg pkg (WitSeg.selfImport ws path) ++ z) = some z := by
  obtain ⟨p0, pkg', rfl⟩ := List.exists_cons_of_ne_nil hpkg
  obtain ⟨w0, ws', rfl⟩ := List.exists_cons_of_ne_nil hws
  have hp0 : isWsChar p0 = false := hpkghead p0 rfl
  cases path with
  | none =>
    have hassoc : renderSeg (p0 :: pkg') (WitSeg.selfImport (w0 :: ws') none) ++ z
        = "import".data ++ ((w0 :: ws') ++ ((p0 :: pkg') ++ (';' :: z))) := by
      simp [renderSeg, List.append_assoc]
    unfold matchSelfImport
    rw [hassoc, stripLit_append]
    have hdrop : ((w0 :: ws') ++ ((p0 :: pkg') ++ (';' :: z))).dropWhile isWsChar
        = (p0 :: pkg') ++ (';' :: z) := by
      rw [dropWhile_append_all hwsall, List.cons_append,
        List.dropWhile_cons_of_neg (by simp [hp0]), ← List.cons_append]
    simp only [List.cons_append, List.head?_cons]
    rw [if_pos (hwsall w0 (by simp))]
    rw [show ((w0 :: (ws' ++ (p0 :: (pkg' ++ (';' :: z))))).dropWhile isWsChar)
        = (p0 :: pkg') ++ (';' :: z) from by simpa using hdrop]
    rw [show ((p0 :: pkg') ++ (';' :: z)) = (p0 :: pkg') ++ (';' :: z) from rfl,
      stripLit_append]
    rfl
  | some p =>
    have hassoc : renderSeg (p0 :: pkg') (WitSeg.selfImport (w0 :: ws') (some p)) ++ z
        = "import".data ++ ((w0 :: ws') ++ ((p0 :: pkg') ++ ('/' :: (p ++ ';' :: z)))) := by
      simp [renderSeg, List.append_assoc]
    unfold matchSelfImport
    rw [hassoc, stripLit_append]
    have hdrop : ((w0 :: ws') ++ ((p0 :: pkg') ++ ('/' :: (p ++ ';' :: z)))).dropWhile isWsChar
        = (p0 :: pkg') ++ ('/' :: (p ++ ';' :: z)) := by
      rw [dropWhile_append_all hwsall, List.cons_append,
        List.dropWhile_cons_of_neg (by simp [hp0]), ← List.cons_append]
    simp only [List.cons_append, List.head?_cons]
    rw [if_pos (hwsall w0 (by simp))]
    rw [show ((w0 :: (ws' ++ (p0 :: (pkg' ++ ('/' :: (p ++ ';' :: z)))))).dropWhile isWsChar)
        = (p0 :: pkg') ++ ('/' :: (p ++ ';' :: z)) from by simpa using hdrop]
    rw [stripLit_append]
    show matchAfterPkg ('/' :: (p ++ ';' :: z)) = some z
    have hdw2 : (p ++ ';' :: z).dropWhile (fun c => !(c = ';')) = ';' :: z := by
      rw [dropWhile_append_all (fun c hc => by
        simp only [Bool.not_eq_true']
        simpa using hpath p rfl c hc)]
      rw [List.dropWhile_cons_of_neg (by simp)]
    rw [show matchAfterPkg ('/' :: (p ++ ';' :: z))
        = (match (p ++ ';' :: z).dropWhile (fun c => !(c = ';')) with
           | ';' :: rest2 => some rest2
           | _ => none) from rfl]
    rw [hdw2]
    rfl

theorem append_eq_append_of_le {a s u y : List Char}
    (h : a ++ s = u ++ y) (hle : u.length ≤ a.length) :
    u = a.take u.length ∧ a.drop u.length ++ s = y := by
  constructor
  · have ht := congrArg (List.take u.length) h
    rw [List.take_append_eq_append_take, List.take_append_eq_append_take] at ht
    rw [Nat.sub_eq_zero_of_le hle, Nat.sub_self] at ht
    simp only [List.take_zero, List.append_nil] at ht
    rw [List.take_length] at ht
    exact ht.symm
  · have hd := congrArg (List.drop u.length) h
    rw [List.drop_append_eq_append_drop, List.drop_append_eq_append_drop] at hd
    rw [Nat.sub_eq_zero_of_le hle, Nat.sub_self] at hd
    simp only [List.drop_zero] at hd
    rw [List.drop_length] at hd
    simpa using hd

theorem no_match_in_other {pkg t y : List Char}
    (hno : isInfixL "import".data t = false)
    (hy : y = [] ∨ ∃ y', y = "import".data ++ y') :
    ∀ i, i < t.length → matchSelfImport pkg (List.drop i t ++ y) = none := by
  intro i hi
  cases hm : matchSelfImport pkg (List.drop i t ++ y) with
  | none => rfl
  | some rem =>
    exfalso
    have hsl : ∃ s1, stripLit "import".data (List.drop i t ++ y) = some s1 := by
      unfold matchSelfImport at hm
      cases hsl' : stripLit "import".data (List.drop i t ++ y) with
      | none => rw [hsl'] at hm; cases hm
      | some s1 => exact ⟨s1, rfl⟩
    obtain ⟨s1, hsl⟩ := hsl
    have happ : List.drop i t ++ y = "import".data ++ s1 := stripLit_some_append hsl
    have h6 : ("import".data).length = 6 := rfl
    have hulen : 0 < (List.drop i t).length := by
      rw [List.length_drop]; omega
    by_cases hk : 6 ≤ (List.drop i t).length
    · obtain ⟨hiu, -⟩ := append_eq_append_of_le happ (by omega)
      rw [h6] at hiu
      have hpre : "import".data <+: List.drop i t :=
        ⟨(List.drop i t).drop 6, by rw [hiu]; exact List.take_append_drop 6 _⟩
      obtain ⟨v, hv⟩ := hpre
      have hinf : "import".data <:+: t :=
        ⟨t.take i, v, by rw [List.append_assoc, hv]; exact List.take_append_drop i t⟩
      rw [← isInfixL_iff, hno] at hinf
      cases hinf
    · obtain ⟨-, hy_eq⟩ := append_eq_append_of_le happ.symm (by omega)
      rcases hy with rfl | ⟨y', rfl⟩
      · obtain ⟨hd, -⟩ := List.append_eq_nil.mp hy_eq
        rw [List.drop_eq_nil_iff] at hd
        rw [h6] at hd
        omega
      · obtain ⟨heq, -⟩ := append_eq_append_of_le hy_eq.symm
          (by rw [List.length_drop]; omega)
        rw [List.length_drop, List.length_drop, h6] at heq
        rw [List.length_drop] at hk hulen
        have h15 : t.length - i = 1 ∨ t.length - i = 2 ∨ t.length - i = 3 ∨
            t.length - i = 4 ∨ t.length - i = 5 := by omega
        rcases h15 with h' | h' | h' | h' | h' <;> rw [h'] at heq <;>
          exact absurd heq (by decide)

theorem stripImports_append {pkg : List Char} :
    ∀ (x y : List Char),
      (∀ i, i < x.length → matchSelfImport pkg (List.drop i x ++ y) = none) →
      stripImports pkg (x ++ y) = x ++ stripImports pkg y := by
  intro x
  induction x with
  | nil => intro y _; simp
  | cons c rest ih =>
    intro y h
    have h0 : matchSelfImport pkg (c :: (rest ++ y)) = none := by
      have h' := h 0 (by simp)
      simpa using h'
    rw [List.cons_append, stripImports_cons_none h0]
    rw [ih y (fun i hi => by
      have h' := h (i + 1) (by simp only [List.length_cons]; omega)
      simpa [List.drop_succ_cons] using h')]
    rfl

theorem stripImports_of_match_head {pkg s rem : List Char} (hs : s ≠ [])
    (hm : matchSelfImport pkg s = some rem) :
    stripImports pkg s = stripImports pkg rem := by
  obtain ⟨c, l, rfl⟩ := List.exists_cons_of_ne_nil hs
  exact stripImports_cons_some hm

theorem noConsecOthers_tail {a : WitSeg} {rest : List WitSeg}
    (h : noConsecOthers (a :: rest) = true) : noConsecOthers rest = true := by
  cases rest with
  | nil => rfl
  | cons b r =>
    simp only [noConsecOthers, Bool.and_eq_true] at h
    exact h.2

/-- `replace_self_imports_from_dependencies` removes exactly the
self-stub import statements: on any well-formed segmented file, the
stripped content is the concatenation of the non-import segments. -/
theorem stripImports_renderSegs {pkg : List Char}
    (hpkg : pkg ≠ []) (hpkghead : ∀ c, pkg.head? = some c → isWsChar c = false) :
    ∀ (segs : List WitSeg),
      (∀ s ∈ segs, goodSeg s = true) →
      noConsecOthers segs = true →
      stripImports pkg (renderSegs pkg segs) = keepOther segs := by
  intro segs
  induction segs with
  | nil => intro _ _; rfl
  | cons s rest ih =>
    intro hgood hcons
    have hrestgood : ∀ x ∈ rest, goodSeg x = true :=
      fun x hx => hgood x (List.mem_cons_of_mem _ hx)
    have hrestcons := noConsecOthers_tail hcons
    cases s with
    | selfImport ws path =>
      have hg := hgood _ (List.mem_cons_self _ _)
      simp only [goodSeg, Bool.and_eq_true, Bool.not_eq_true'] at hg
      obtain ⟨⟨hne', hall'⟩, hpath'⟩ := hg
      have hne : ws ≠ [] := by
        intro hc; subst hc; simp at hne'
      have hall : ∀ c ∈ ws, isWsChar c = true := by
        intro c hc; simpa using List.all_eq_true.mp hall' c hc
      have hpath : ∀ p, path = some p → ∀ c ∈ p, c ≠ ';' := by
        intro p hp c hc
        subst hp
        have hp' : (p.all fun c => !(c = ';')) = true := hpath'
        simpa using List.all_eq_true.mp hp' c hc
      have hren : renderSegs pkg (WitSeg.selfImport ws path :: rest)
          = renderSeg pkg (WitSeg.selfImport ws path) ++ renderSegs pkg rest := by
        simp [renderSegs]
      rw [hren]
      have hm := matchSelfImport_render (renderSegs pkg rest)
        hne hall hpath hpkg hpkghead
      rw [stripImports_of_match_head (by simp [renderSeg]) hm]
      rw [ih hrestgood hrestcons]
      rfl
    | other t =>
      have hg := hgood _ (List.mem_cons_self _ _)
      have hno : isInfixL "import".data t = false := by
        simpa [goodSeg, Bool.not_eq_true'] using hg
      have hren : renderSegs pkg (WitSeg.other t :: rest)
          = t ++ renderSegs pkg rest := by simp [renderSegs, renderSeg]
      rw [hren]
      have hy : renderSegs pkg rest = [] ∨
          ∃ y', renderSegs pkg rest = "import".data ++ y' := by
        cases rest with
        | nil => exact Or.inl rfl
        | cons s' r' =>
          cases s' with
          | selfImport ws' path' =>
            cases path' with
            | none =>
              exact Or.inr ⟨ws' ++ (pkg ++ ([';'] ++ renderSegs pkg r')), by
                simp [renderSegs, renderSeg, List.append_assoc]⟩
            | some p =>
              exact Or.inr ⟨ws' ++ (pkg ++ (('/' :: p) ++ ([';'] ++ renderSegs pkg r'))), by
                simp [renderSegs, renderSeg, List.append_assoc]⟩
          | other t' =>
            exfalso
            simp [noConsecOthers, isOtherSeg] at hcons
      rw [stripImports_append t _ (no_match_in_other hno hy)]
      rw [ih hrestgood hrestcons]
      rfl

theorem planExternalActions_shape
    {destPkg : MUnresolvedPackage} {mainDir mainContent : String}
    {dirs : List MDepDir} {a : WitAction}
    (ha : a ∈ planExternalActions destPkg mainDir mainContent dirs) :
    a = WitAction.copyDepWit mainDir mainContent ∨
    ∃ d ∈ dirs,
      (¬ (d.pkg = destPkg.name) ∧
       ¬ (d.pkg.nsp = destPkg.name.nsp ∧ d.pkg.name = destPkg.name.name ++ "-stub")) ∧
      ∃ f ∈ d.files,
        a = WitAction.writeWit d.dirName f.1 (replaceSelfImports destPkg.name f.2) := by
  unfold planExternalActions at ha
  rcases List.mem_append.mp ha with hL | hR
  · right
    rw [List.mem_flatten] at hL
    obtain ⟨l, hl, hal⟩ := hL
    rw [List.mem_map] at hl
    obtain ⟨d, hd, rfl⟩ := hl
    by_cases hinv : isInvalidDependency destPkg.name d.pkg = true
    · rw [if_pos hinv] at hal
      cases hal
    · rw [if_neg hinv] at hal
      rw [List.mem_map] at hal
      obtain ⟨f, hf, rfl⟩ := hal
      refine ⟨d, hd, ?_, f, hf, rfl⟩
      simp only [isInvalidDependency, Bool.or_eq_true, Bool.and_eq_true,
        decide_eq_true_eq, not_or, not_and] at hinv
      push_neg at hinv
      exact ⟨hinv.1, fun hc => hinv.2 hc.1 hc.2⟩
  · left
    simpa using hR

/-- Destination package of the C8 scenario (`ns:caller`, no version). -/
def destC8 : MUnresolvedPackage :=
  { name := { nsp := "ns", name := "caller", version := none },
    interfaces := [], worlds := [] }

/-- A stub dependency directory whose package is `ns:caller@1.0.0`: the
(namespace, name) identity equals the destination's, the version does
not. -/
def depC8 : MDepDir :=
  { dirName := "ns_caller",
    pkg := { nsp := "ns", name := "caller", version := some "1.0.0" },
    files := [("caller.wit", "x")] }

/-- **C8 counterexample.** A dependency directory whose package identity
(namespace, name) equals the destination's own identity is *not* excluded
from the planned actions when the versions differ:
`is_invalid_dependency` (lib.rs:536) compares the full `PackageName`
including the version, so `ns:caller@1.0.0` survives a merge into
`ns:caller` and its write action is planned. -/
theorem merge_same_identity_dep_not_excluded :
    (depC8.pkg.nsp = destC8.name.nsp ∧ depC8.pkg.name = destC8.name.name) ∧
    planExternalActions destC8 "ns_api-stub" "m" [depC8]
      = [WitAction.writeWit "ns_caller" "caller.wit" "x",
         WitAction.copyDepWit "ns_api-stub" "m"] :=
  ⟨⟨rfl, rfl⟩, rfl⟩

/-- **C8 (amended).** In a merge where the destination does not own the
stubbed world: (1) every planned action is either the final copy of the
stub's main document, or a write of a file from a dependency directory
whose parsed package name differs from the destination's *full* package
name (namespace, name and version) and is not the destination's derived
stub identity (same namespace, name with `-stub` appended) — directories
matching either condition contribute no action; and (2) the planned
content of every retained file is the file content with every import
statement matching `import <namespace>:<name>-stub(/...)?;` for the
destination's derived stub package removed (stated for contents segmented
into self-stub import statements and `import`-free text). -/
theorem merge_plan_excludes_and_strips :
    (∀ (destPkg : MUnresolvedPackage) (mainDir mainContent : String)
       (dirs : List MDepDir) (a : WitAction),
       a ∈ planExternalActions destPkg mainDir mainContent dirs →
       a = WitAction.copyDepWit mainDir mainContent ∨
       ∃ d ∈ dirs,
         (¬ (d.pkg = destPkg.name) ∧
          ¬ (d.pkg.nsp = destPkg.name.nsp ∧
             d.pkg.name = destPkg.name.name ++ "-stub")) ∧
         ∃ f ∈ d.files,
           a = WitAction.writeWit d.dirName f.1
             (replaceSelfImports destPkg.name f.2)) ∧
    (∀ (dest : MPackageName) (segs : List WitSeg),
       (∀ s ∈ segs, goodSeg s = true) →
       noConsecOthers segs = true →
       selfStubLit dest ≠ [] →
       (∀ c, (selfStubLit dest).head? = some c → isWsChar c = false) →
       replaceSelfImports dest ⟨renderSegs (selfStubLit dest) segs⟩
         = ⟨keepOther segs⟩) :=
  ⟨fun _ _ _ _ _ ha => planExternalActions_shape ha,
   fun dest segs h1 h2 h3 h4 =>
     congrArg (fun l => (⟨l⟩ : String))
       (stripImports_renderSegs h3 h4 segs h1 h2)⟩

/-- A valid (retained) dependency directory for the witness. -/
def depOkC8 : MDepDir :=
  { dirName := "ns_dep",
    pkg := { nsp := "ns", name := "dep", version := none },
    files := [("dep.wit", "body")] }

/-- A well-formed segmented dependency file for the witness: text, one
self-stub import, more text. -/
def segsC8 : List WitSeg :=
  [WitSeg.other "package x;\n".data,
   WitSeg.selfImport [' '] none,
   WitSeg.other "\nworld w \x7b\x7d".data]

/-- Closed instance for `merge_plan_excludes_and_strips`: both parts
applied to concrete inputs (the planned write of a retained dependency
file, and the stripping of one self-stub import from a concrete file). -/
theorem merge_plan_excludes_and_strips_witness :
    (WitAction.writeWit "ns_dep" "dep.wit" (replaceSelfImports destC8.name "body")
       = WitAction.copyDepWit "m" "mc" ∨
     ∃ d ∈ [depOkC8],
       (¬ (d.pkg = destC8.name) ∧
        ¬ (d.pkg.nsp = destC8.name.nsp ∧
           d.pkg.name = destC8.name.name ++ "-stub")) ∧
       ∃ f ∈ d.files,
         WitAction.writeWit "ns_dep" "dep.wit" (replaceSelfImports destC8.name "body")
           = WitAction.writeWit d.dirName f.1
               (replaceSelfImports destC8.name f.2)) ∧
    replaceSelfImports destC8.name ⟨renderSegs (selfStubLit destC8.name) segsC8⟩
      = ⟨keepOther segsC8⟩ :=
  ⟨merge_plan_excludes_and_strips.1 destC8 "m" "mc" [depOkC8]
      (WitAction.writeWit "ns_dep" "dep.wit" (replaceSelfImports destC8.name "body"))
      (by decide),
   merge_plan_excludes_and_strips.2 destC8.name segsC8
      (by decide) (by decide) (by decide) (by decide)⟩
